import Mathlib

/-!
Shallow embedding of `read_spe.py` (SPE 3.0 file reader) from the
repository `tsphot`.  The source is a single class `File` that decodes a
binary header driven by an external schema (rows of offset / binary-type /
name), optionally loads an XML footer, and reads fixed-stride frames from
a file that may still be growing.

Modelling notes, all derived from the source:
  * the byte stream is a `List Nat` (one entry per byte);
  * `numpy.fromfile` never fails on a short read: it returns as many
    complete elements as are available, and a negative count reads all
    remaining complete elements;
  * multi-byte integers are little-endian (native order of the supported
    platform); IEEE float fields are kept as raw bits (`HVal.floatBits`)
    because no consumer in the source interprets a float-valued field;
  * Python `//` is `Int.fdiv` and `%` is `Int.fmod` (floor semantics);
  * exceptions become an error type: `keyError` (dict lookup), `indexError`
    (`[0]` of an empty array / `.values[0]` of an empty selection),
    `zeroDivisionError` (`% 0`), `valueError` (`reshape` size mismatch or
    `int(nan)`), `typeError` (`seek` on a non-integer), `attributeError`
    (missing object attribute);
  * the Python source in the repository is a work-in-progress snapshot with
    lexical slips (`self.read_at` for `self._read_at`, bare `start_offset`
    for `self._get_start_offset()`, `bits_per_metadata` for
    `bits_per_metadata_elt`, ...); the embedding resolves each slipped name
    to the unique definition of that quantity in the class, which is the
    only reading under which the module runs at all.
-/

namespace ReadSpe

/-- numpy element types used by the reader. -/
inductive NType where
  | i8 | u8 | i16 | u16 | i32 | u32 | i64 | u64 | f32 | f64
  deriving DecidableEq, Repr

/-- `File.bits_per_byte = 8`. -/
def bits_per_byte : Nat := 8

/-- `File.num_metadata = 3` (per-frame metadata elements). -/
def num_metadata : Nat := 3

/-- `File.spe_30_required_offsets`. -/
def spe_30_required_offsets : List Nat :=
  [6, 18, 34, 42, 108, 656, 658, 664, 678, 1446, 1992, 2996, 4098]

/-- `File.ntype_to_bits`: bit width of each element type. -/
def ntype_to_bits : NType → Nat
  | .i8 => 8 | .u8 => 8
  | .i16 => 16 | .u16 => 16
  | .i32 => 32 | .u32 => 32
  | .i64 => 64 | .u64 => 64
  | .f32 => 32 | .f64 => 64

/-- `File.datatype_to_ntype`: on-disk pixel datatype code to element type.
    Unlisted codes raise `KeyError`, modelled as `none`. -/
def datatype_to_ntype : Int → Option NType
  | 6 => some .u8 | 3 => some .u16
  | 2 => some .i16 | 8 => some .u32
  | 1 => some .i32 | 0 => some .f32
  | 5 => some .f64
  | _ => none

/-- `File.binary_to_ntype`: schema binary-type tag to element type. -/
def binary_to_ntype : String → Option NType
  | "8s" => some .i8 | "8u" => some .u8
  | "16s" => some .i16 | "16u" => some .u16
  | "32s" => some .i32 | "32u" => some .u32
  | "64s" => some .i64 | "64u" => some .u64
  | "32f" => some .f32 | "64f" => some .f64
  | _ => none

/-- Is the element type signed-integral? -/
def isSigned : NType → Bool
  | .i8 | .i16 | .i32 | .i64 => true
  | _ => false

/-- Is the element type a float? -/
def isFloat : NType → Bool
  | .f32 | .f64 => true
  | _ => false

/-- Bytes per element of a given type. -/
def bytesPerElem (t : NType) : Nat := ntype_to_bits t / bits_per_byte

/-- A decoded scalar: exact integers for integral types, raw IEEE bits for
    float types (no consumer in the source interprets a float field). -/
inductive HVal where
  | intv : Int → HVal
  | floatBits : Nat → HVal
  deriving DecidableEq, Repr

/-- Little-endian value of a byte list. -/
def leNat : List Nat → Nat
  | [] => 0
  | b :: bs => b + 256 * leNat bs

/-- Decode one element of type `t` from its (little-endian) bytes, as
    `numpy.fromfile` does: unsigned as-is, signed via two's complement. -/
def decodeElem (t : NType) (bytes : List Nat) : HVal :=
  let n := leNat bytes
  let bits := ntype_to_bits t
  if isFloat t then .floatBits n
  else if isSigned t then
    (if n < 2 ^ (bits - 1) then .intv (n : Int) else .intv ((n : Int) - 2 ^ bits))
  else .intv (n : Int)

/-- Split the first `n` chunks of `bpe` bytes off a byte list (complete
    chunks only are ever requested). -/
def takeChunks (bpe : Nat) : Nat → List Nat → List (List Nat)
  | 0, _ => []
  | n + 1, l => l.take bpe :: takeChunks bpe n (l.drop bpe)

/-- `File._read_at(offset, size, ntype)`: seek to `offset`, then
    `numpy.fromfile(fid, ntype, size)`.  `fromfile` reads
    `min(size, available)` complete elements (all available when `size`
    is negative) and never raises on a short read. -/
def read_at (file : List Nat) (offset : Nat) (size : Int) (t : NType) : List HVal :=
  let bpe := bytesPerElem t
  let availElems := (file.length - offset) / bpe
  let n := if size < 0 then availElems else min size.toNat availElems
  (takeChunks bpe n (file.drop offset)).map (decodeElem t)

/-- The Python exceptions the modelled code can raise. -/
inductive SpeError where
  | keyError
  | indexError
  | zeroDivisionError
  | valueError
  | typeError
  | attributeError
  deriving DecidableEq, Repr

/-- One row of the header-format schema CSV (columns Offset, Binary,
    Type_Name), comment rows already stripped. -/
structure HeaderRow where
  offset : Nat
  binary : String
  type_name : String
  deriving DecidableEq, Repr

/-- A row of `File.header_metadata` after loading: the schema row plus the
    `Value` column (`none` models numpy NaN / unset). -/
structure HeaderField where
  row : HeaderRow
  value : Option HVal
  deriving DecidableEq, Repr

/-- The size (element count) requested for schema row `i`:
    `Offset[i+1] - Offset[i] - 1`, and `1` for the last row
    (the `KeyError` branch in `_load_header_metadata`). -/
def sizeAt (rows : List HeaderRow) (i : Nat) : Int :=
  match rows.get? i, rows.get? (i + 1) with
  | some r, some nxt => (nxt.offset : Int) - (r.offset : Int) - 1
  | some _, none => 1
  | none, _ => 0

/-- The main loop of `File._load_header_metadata`: for each schema row,
    decode its span with `_read_at` and record it in `offset_to_value`
    (represented as the association list in iteration order). -/
def decodeRows (file : List Nat) : List HeaderRow → Except SpeError (List (Nat × List HVal))
  | [] => .ok []
  | r :: rest =>
    let size : Int :=
      match rest with
      | [] => 1
      | nxt :: _ => (nxt.offset : Int) - (r.offset : Int) - 1
    match binary_to_ntype r.binary with
    | none => .error .keyError
    | some t =>
      match decodeRows file rest with
      | .error e => .error e
      | .ok tail => .ok ((r.offset, read_at file r.offset size t) :: tail)

/-- Python-dict lookup on the association list: the latest binding of a
    key wins (`offset_to_value[offset] = ...` overwrites). -/
def dictLookup (l : List (Nat × List HVal)) (k : Nat) : Option (List HVal) :=
  match l with
  | [] => none
  | (k1, v) :: rest =>
    match dictLookup rest k with
    | some r => some r
    | none => if k1 = k then some v else none

/-- The second loop of `File._load_header_metadata`: starting from an
    all-NaN `Value` column, for each required offset assign
    `offset_to_value[offset][0]` to every row whose `Offset` matches.
    `offset_to_value[offset]` raises `KeyError` when absent and `[0]`
    raises `IndexError` on an empty array, in both cases even when no row
    matches the mask (Python evaluates the right-hand side first). -/
def applyRequired (otv : List (Nat × List HVal)) :
    List Nat → List HeaderField → Except SpeError (List HeaderField)
  | [], fields => .ok fields
  | off :: rest, fields =>
    match dictLookup otv off with
    | none => .error .keyError
    | some [] => .error .indexError
    | some (v :: _) =>
      applyRequired otv rest
        (fields.map fun f => if f.row.offset = off then ⟨f.row, some v⟩ else f)

/-- `File._load_header_metadata`, given the comment-stripped schema rows
    and the file bytes: decode every row's span, then fill the `Value`
    column for the SPE 3.0 required offsets only. -/
def load_header_metadata (file : List Nat) (rows : List HeaderRow) :
    Except SpeError (List HeaderField) :=
  match decodeRows file rows with
  | .error e => .error e
  | .ok otv =>
    applyRequired otv spe_30_required_offsets (rows.map fun r => ⟨r, none⟩)

/-- First row of the header table whose `Type_Name` matches (pandas mask
    followed by `.values[0]`; `none` means the selection was empty, in
    which case `.values[0]` raises `IndexError`). -/
def findByTypeName (hm : List HeaderField) (name : String) : Option HeaderField :=
  hm.find? fun f => f.row.type_name == name

/-- The session state (`File` object): the last-read frame index, the
    decoded header table, the optional footer attribute and the byte
    stream (live: it is re-inspected on every call). -/
structure FileState where
  current_frame_idx : Int
  header_metadata : List HeaderField
  footer_metadata : Option (List Nat)
  file : List Nat
  deriving DecidableEq, Repr

/-- `File._load_footer_metadata`: look up the `XMLOffset` header value; if
    it is `0`, emit an informational message and leave the
    `footer_metadata` attribute unset; otherwise seek there and keep the
    rest of the stream (the XML text handed to `objectify.fromstring`,
    whose XML parsing is not itself modelled).  A NaN value makes
    `seek` raise `TypeError`, as does a raw-float value; a negative value
    makes `seek` raise (modelled as `valueError`). -/
def load_footer_metadata (file : List Nat) (hm : List HeaderField) :
    Except SpeError (Option (List Nat) × List String) :=
  match findByTypeName hm "XMLOffset" with
  | none => .error .indexError
  | some f =>
    match f.value with
    | none => .error .typeError
    | some (.floatBits _) => .error .typeError
    | some (.intv off) =>
      if off = 0 then .ok (none, ["INFO: XML footer metadata is empty"])
      else if off < 0 then .error .valueError
      else .ok (some (file.drop off.toNat), [])

/-- `File.__init__`: set `current_frame_idx := 0`, open the stream, load
    header metadata, load footer metadata.  Returns the constructed
    session together with the informational messages printed to stderr;
    any exception aborts construction (no object is returned). -/
def File.init (rows : List HeaderRow) (file : List Nat) :
    Except SpeError (FileState × List String) :=
  match load_header_metadata file rows with
  | .error e => .error e
  | .ok hm =>
    match load_footer_metadata file hm with
    | .error e => .error e
    | .ok (fm, info) =>
      .ok ({ current_frame_idx := 0, header_metadata := hm,
             footer_metadata := fm, file := file }, info)

/-- `File.get_header_metadata`. -/
def get_header_metadata (s : FileState) : List HeaderField := s.header_metadata

/-- `File.get_footer_metadata`: return `self.footer_metadata`; if the
    attribute was never created, Python raises `AttributeError`. -/
def get_footer_metadata (s : FileState) : Except SpeError (List Nat) :=
  match s.footer_metadata with
  | none => .error .attributeError
  | some fm => .ok fm

/-- `File._get_start_offset`: byte offset of the `lastvalue` schema row
    plus `2` (the row's `Offset` column, not its `Value`).  An empty
    pandas selection makes `.values[0]` raise `IndexError`. -/
def get_start_offset (hm : List HeaderField) : Except SpeError Int :=
  match findByTypeName hm "lastvalue" with
  | none => .error .indexError
  | some f => .ok ((f.row.offset : Int) + 2)

/-- `File._get_eof_offset`: `seek(0, 2); tell()` — the live byte length of
    the stream, re-read on every invocation. -/
def get_eof_offset (file : List Nat) : Nat := file.length

/-- Look up a header field's `Value` as an exact integer.  A missing row
    raises `IndexError`; a NaN value fed to `int()` raises `ValueError`;
    raw-float values are outside the model (all geometry fields of the
    SPE 3.0 schema are integer-typed), modelled as `typeError`. -/
def getValueInt (hm : List HeaderField) (name : String) : Except SpeError Int :=
  match findByTypeName hm name with
  | none => .error .indexError
  | some f =>
    match f.value with
    | none => .error .valueError
    | some (.floatBits _) => .error .typeError
    | some (.intv v) => .ok v

/-- `File.get_pixels_per_frame`: `int(xdim * ydim)` from header values. -/
def get_pixels_per_frame (hm : List HeaderField) : Except SpeError Int :=
  match getValueInt hm "xdim" with
  | .error e => .error e
  | .ok xdim =>
    match getValueInt hm "ydim" with
    | .error e => .error e
    | .ok ydim => .ok (xdim * ydim)

/-- `File._get_pixel_ntype`: `datatype_to_ntype[header value of datatype]`
    (`KeyError` on an unsupported code). -/
def get_pixel_ntype (hm : List HeaderField) : Except SpeError NType :=
  match getValueInt hm "datatype" with
  | .error e => .error e
  | .ok code =>
    match datatype_to_ntype code with
    | none => .error .keyError
    | some t => .ok t

/-- `File._get_bytes_per_frame`:
    `int(pixels_per_frame * (bits_per_pixel / bits_per_byte))`.  Every
    supported bit width is a multiple of 8, so the float division and
    truncation in the source are exact and the result is
    `pixels_per_frame * (bits_per_pixel / 8)`. -/
def get_bytes_per_frame (hm : List HeaderField) : Except SpeError Int :=
  match get_pixels_per_frame hm with
  | .error e => .error e
  | .ok ppf =>
    match get_pixel_ntype hm with
    | .error e => .error e
    | .ok t => .ok (ppf * ((ntype_to_bits t : Int) / (bits_per_byte : Int)))

/-- `File._get_bytes_per_metadata_elt`: metadata elements are 64-bit
    signed integers, so `64 / 8 = 8` bytes each (the source's
    `bits_per_metadata` is the slipped name of `bits_per_metadata_elt`). -/
def get_bytes_per_metadata_elt : Int :=
  (ntype_to_bits .i64 : Int) / (bits_per_byte : Int)

/-- `File._get_bytes_per_stride`:
    `bytes_per_frame + num_metadata * bytes_per_metadata_elt`. -/
def get_bytes_per_stride (hm : List HeaderField) : Except SpeError Int :=
  match get_bytes_per_frame hm with
  | .error e => .error e
  | .ok bpf => .ok (bpf + (num_metadata : Int) * get_bytes_per_metadata_elt)

/-- `File._get_num_frames`:
    `(eof_offset - start_offset) // bytes_per_stride`, with the
    end-of-file offset obtained live by `_get_eof_offset` during this very
    call (never cached), so the floor division discards any
    partially-written trailing stride. -/
def get_num_frames (s : FileState) : Except SpeError Int :=
  match get_start_offset s.header_metadata with
  | .error e => .error e
  | .ok so =>
    match get_bytes_per_stride s.header_metadata with
    | .error e => .error e
    | .ok bps => .ok (Int.fdiv ((get_eof_offset s.file : Int) - so) bps)

/-- `frame_offset = start_offset + (self.current_frame_idx * bytes_per_stride)`
    (source line of `_get_frame`). -/
def frame_offset_of (start_offset resolved_idx bytes_per_stride : Int) : Int :=
  start_offset + resolved_idx * bytes_per_stride

/-- `metadata_offset = frame_offset + bytes_per_frame`
    (source line of `_get_frame`). -/
def metadata_offset_of (frame_offset bytes_per_frame : Int) : Int :=
  frame_offset + bytes_per_frame

/-- A returned frame: the pixel block reshaped to `(ydim, xdim)`
    row-major, kept here as the flat element list plus its shape. -/
structure Frame where
  ydim : Int
  xdim : Int
  pixels : List HVal
  deriving DecidableEq, Repr

/-- Per-frame metadata: the two tick counts divided by
    `ticks_per_second = 1000000` and added to the file's creation time
    (exact rational arithmetic stands in for the float arithmetic of the
    source; only equalities of these values are ever proved), plus the raw
    frame tracking number. -/
structure FrameMetadata where
  time_stamp_exposure_started : ℚ
  time_stamp_exposure_ended : ℚ
  frame_tracking_number : Int
  deriving DecidableEq, Repr

/-- `ticks_per_second = 1000000` (ProEM timer-counter card). -/
def ticks_per_second : Nat := 1000000

/-- The part of `File._get_frame` that runs after the last-read index has
    been updated: compute geometry, seek and read the pixel block, reshape
    it, and read the three metadata elements.  `file_ctime` is
    `os.path.getctime(self._fname)`. -/
def readResolvedFrame (file : List Nat) (hm : List HeaderField)
    (file_ctime : ℚ) (resolved : Int) : Except SpeError (Frame × FrameMetadata) :=
  match get_start_offset hm with
  | .error e => .error e
  | .ok so =>
    match get_bytes_per_stride hm with
    | .error e => .error e
    | .ok bps =>
      match get_bytes_per_frame hm with
      | .error e => .error e
      | .ok bpf =>
        match get_pixels_per_frame hm with
        | .error e => .error e
        | .ok ppf =>
          match get_pixel_ntype hm with
          | .error e => .error e
          | .ok pt =>
            match getValueInt hm "xdim", getValueInt hm "ydim" with
            | .error e, _ => .error e
            | .ok _, .error e => .error e
            | .ok xdim, .ok ydim =>
              let frame_offset := frame_offset_of so resolved bps
              let metadata_offset := metadata_offset_of frame_offset bpf
              if frame_offset < 0 then .error .valueError
              else
                let frame := read_at file frame_offset.toNat ppf pt
                -- reshape((ydim, xdim)) raises ValueError on a size mismatch
                if (frame.length : Int) ≠ ydim * xdim then .error .valueError
                else
                  let bpm := get_bytes_per_metadata_elt
                  let mts_start_offset := metadata_offset
                  let mts_end_offset := mts_start_offset + bpm
                  let mftn_offset := mts_end_offset + bpm
                  if mts_start_offset < 0 then .error .valueError
                  else
                    match read_at file mts_start_offset.toNat 1 .i64,
                          read_at file mts_end_offset.toNat 1 .i64,
                          read_at file mftn_offset.toNat 1 .i64 with
                    | .intv ts0 :: _, .intv ts1 :: _, .intv tn :: _ =>
                      .ok (⟨ydim, xdim, frame⟩,
                           ⟨file_ctime + (ts0 : ℚ) / (ticks_per_second : ℚ),
                            file_ctime + (ts1 : ℚ) / (ticks_per_second : ℚ),
                            tn⟩)
                    | _, _, _ => .error .indexError

/-- `File._get_frame(frame_idx)`: recompute the live frame count, update
    `self.current_frame_idx := frame_idx % num_frames` (raising
    `ZeroDivisionError` first when the count is zero, in which case the
    index is untouched), then read the frame and its metadata.  The
    updated state is returned alongside the result: reads that fail
    happen after the index has already been mutated. -/
def get_frame (file_ctime : ℚ) (s : FileState) (frame_idx : Int) :
    FileState × Except SpeError (Frame × FrameMetadata) :=
  match get_num_frames s with
  | .error e => (s, .error e)
  | .ok nf =>
    if nf = 0 then (s, .error .zeroDivisionError)
    else
      let resolved := Int.fmod frame_idx nf
      let s1 : FileState := { s with current_frame_idx := resolved }
      (s1, readResolvedFrame s1.file s1.header_metadata file_ctime resolved)

/-! ### The number of complete strides, stated from the spec's words

`num_frames_available` is claimed never to exceed the number of complete
strides present in the file at the moment of the call. -/

/-- Number of complete strides between `start_offset` and the current end
    of file (spec wording: `floor((eof_offset - start_offset) / bytes_per_stride)`
    over the complete strides actually present). -/
def completeStrides (file : List Nat) (start_offset bytes_per_stride : Nat) : Nat :=
  (file.length - start_offset) / bytes_per_stride

/-! ### Concrete test artifacts used by witnesses and counterexamples -/

/-- A small header table used by witnesses of the frame-reading claims:
    `lastvalue` at offset 10 (so `start_offset = 12`), `xdim = 2`,
    `ydim = 1`, `datatype = 3` (`uint16`), hence `bytes_per_frame = 4`
    and `bytes_per_stride = 28`. -/
def hm0 : List HeaderField :=
  [⟨⟨10, "16u", "lastvalue"⟩, none⟩,
   ⟨⟨42, "16u", "xdim"⟩, some (.intv 2)⟩,
   ⟨⟨656, "16u", "ydim"⟩, some (.intv 1)⟩,
   ⟨⟨108, "16u", "datatype"⟩, some (.intv 3)⟩]

/-- Session over `hm0` whose stream holds exactly one complete stride
    (`12 + 28 = 40` bytes), so `num_frames = 1`. -/
def st1 : FileState :=
  { current_frame_idx := 0, header_metadata := hm0, footer_metadata := none,
    file := List.replicate 40 7 }

/-- Session over `hm0` whose stream ends exactly at `start_offset`
    (12 bytes), so `num_frames = 0`. -/
def stEmpty : FileState :=
  { current_frame_idx := 5, header_metadata := hm0, footer_metadata := none,
    file := List.replicate 12 7 }

/-- Session over `hm0` whose stream is shorter than `start_offset`
    (5 bytes), so `num_frames = (5 - 12) // 28 = -1`: frame resolution
    succeeds but every subsequent read runs past end-of-file. -/
def stShort : FileState :=
  { current_frame_idx := 5, header_metadata := hm0, footer_metadata := none,
    file := List.replicate 5 7 }

/-- A full schema for the loading claims: one row at every SPE 3.0
    required offset plus one non-required row at offset 8.  `xdim`,
    `ydim`, `datatype`, `XMLOffset` and `lastvalue` carry their real
    types. -/
def wrows : List HeaderRow :=
  [⟨6, "8u", "f6"⟩, ⟨8, "8u", "f8"⟩, ⟨18, "8u", "f18"⟩, ⟨34, "8u", "f34"⟩,
   ⟨42, "16u", "xdim"⟩, ⟨108, "16u", "datatype"⟩, ⟨656, "16u", "ydim"⟩,
   ⟨658, "8u", "f658"⟩, ⟨664, "8u", "f664"⟩, ⟨678, "64u", "XMLOffset"⟩,
   ⟨1446, "8u", "f1446"⟩, ⟨1992, "8u", "f1992"⟩, ⟨2996, "8u", "f2996"⟩,
   ⟨4098, "16u", "lastvalue"⟩]

/-- A 4128-byte file for `wrows`: zeros except `xdim = 2` (offset 42),
    `datatype = 3` (offset 108) and `ydim = 1` (offset 656); `XMLOffset`
    reads as 0, `start_offset = 4100`, and the 28 trailing bytes hold
    exactly one complete stride of zeros, so `num_frames = 1`. -/
def wfile : List Nat :=
  List.replicate 42 0 ++ [2] ++ List.replicate 65 0 ++ [3] ++
  List.replicate 547 0 ++ [1] ++ List.replicate 3471 0

/-- The header table `_load_header_metadata` produces on
    `wfile` / `wrows` (proved below): required rows carry the first
    decoded element of their span, the non-required row `f8` stays
    unset. -/
def whm : List HeaderField :=
  [⟨⟨6, "8u", "f6"⟩, some (.intv 0)⟩,
   ⟨⟨8, "8u", "f8"⟩, none⟩,
   ⟨⟨18, "8u", "f18"⟩, some (.intv 0)⟩,
   ⟨⟨34, "8u", "f34"⟩, some (.intv 0)⟩,
   ⟨⟨42, "16u", "xdim"⟩, some (.intv 2)⟩,
   ⟨⟨108, "16u", "datatype"⟩, some (.intv 3)⟩,
   ⟨⟨656, "16u", "ydim"⟩, some (.intv 1)⟩,
   ⟨⟨658, "8u", "f658"⟩, some (.intv 0)⟩,
   ⟨⟨664, "8u", "f664"⟩, some (.intv 0)⟩,
   ⟨⟨678, "64u", "XMLOffset"⟩, some (.intv 0)⟩,
   ⟨⟨1446, "8u", "f1446"⟩, some (.intv 0)⟩,
   ⟨⟨1992, "8u", "f1992"⟩, some (.intv 0)⟩,
   ⟨⟨2996, "8u", "f2996"⟩, some (.intv 0)⟩,
   ⟨⟨4098, "16u", "lastvalue"⟩, some (.intv 0)⟩]

/-- The `offset_to_value` association list `decodeRows` produces on
    `wfile` / `wrows` (one `_read_at` span per schema row; sizes are the
    inter-offset gaps minus one, and 1 for the last row). -/
def wotv : List (Nat × List HVal) :=
  [(6, read_at wfile 6 1 .u8), (8, read_at wfile 8 9 .u8),
   (18, read_at wfile 18 15 .u8), (34, read_at wfile 34 7 .u8),
   (42, read_at wfile 42 65 .u16), (108, read_at wfile 108 547 .u16),
   (656, read_at wfile 656 1 .u16), (658, read_at wfile 658 5 .u8),
   (664, read_at wfile 664 13 .u8), (678, read_at wfile 678 767 .u64),
   (1446, read_at wfile 1446 545 .u8), (1992, read_at wfile 1992 1003 .u8),
   (2996, read_at wfile 2996 1101 .u8), (4098, read_at wfile 4098 1 .u16)]

/-- The session `File.__init__` builds on `wrows` / `wfile`. -/
def wstate : FileState :=
  { current_frame_idx := 0, header_metadata := whm, footer_metadata := none,
    file := wfile }

/-- Decidable equality for `Except`, needed so that concrete runs of the
    modelled functions can be checked by `decide`. -/
instance exceptDecEq {e a : Type} [DecidableEq e] [DecidableEq a] :
    DecidableEq (Except e a) := fun x y =>
  match x, y with
  | .ok v, .ok w =>
    match decEq v w with
    | isTrue h => isTrue (by rw [h])
    | isFalse h => isFalse (fun hc => h (by injection hc))
  | .error v, .error w =>
    match decEq v w with
    | isTrue h => isTrue (by rw [h])
    | isFalse h => isFalse (fun hc => h (by injection hc))
  | .ok _, .error _ => isFalse (fun hc => Except.noConfusion hc)
  | .error _, .ok _ => isFalse (fun hc => Except.noConfusion hc)

/-! ## Helper lemmas -/

theorem takeChunks_length (bpe : Nat) : ∀ (n : Nat) (l : List Nat),
    (takeChunks bpe n l).length = n := by
  intro n
  induction n with
  | zero => intro l; rfl
  | succ m ih => intro l; simp [takeChunks, ih]

theorem bytesPerElem_pos (t : NType) : 0 < bytesPerElem t := by
  cases t <;> decide

/-- Element count returned by `_read_at`: `numpy.fromfile` yields
    `min(size, available)` complete elements (all of them when `size < 0`). -/
theorem read_at_length (file : List Nat) (offset : Nat) (size : Int) (t : NType) :
    (read_at file offset size t).length =
      if size < 0 then (file.length - offset) / bytesPerElem t
      else min size.toNat ((file.length - offset) / bytesPerElem t) := by
  unfold read_at
  split <;> simp [takeChunks_length]

/-- A seek at or past end-of-file reads nothing (and raises nothing). -/
theorem read_at_nil (file : List Nat) (offset : Nat) (size : Int) (t : NType)
    (h : file.length ≤ offset) : read_at file offset size t = [] := by
  unfold read_at
  have hz : (file.length - offset) / bytesPerElem t = 0 := by
    have : file.length - offset = 0 := Nat.sub_eq_zero_of_le h
    simp [this]
  split
  · simp [hz, takeChunks]
  · simp [hz, takeChunks]

/-- When at least one complete element lies under the read window, the
    first element read is the decode of the first `bytesPerElem t` bytes
    at the seek position. -/
theorem read_at_head (file : List Nat) (offset : Nat) (size : Int) (t : NType)
    (hsz : 1 ≤ size) (hlen : offset + bytesPerElem t ≤ file.length) :
    ∃ rest, read_at file offset size t =
      decodeElem t ((file.drop offset).take (bytesPerElem t)) :: rest := by
  unfold read_at
  have hnot : ¬ size < 0 := by omega
  have havail : 1 ≤ (file.length - offset) / bytesPerElem t := by
    have h1 : bytesPerElem t ≤ file.length - offset := by omega
    exact (Nat.one_le_div_iff (bytesPerElem_pos t)).mpr h1
  have hsz1 : 1 ≤ size.toNat := by omega
  have hn : 1 ≤ min size.toNat ((file.length - offset) / bytesPerElem t) := by
    omega
  simp only [hnot, if_false]
  obtain ⟨m, hm⟩ : ∃ m, min size.toNat ((file.length - offset) / bytesPerElem t) = m + 1 := by
    refine ⟨min size.toNat ((file.length - offset) / bytesPerElem t) - 1, ?_⟩
    omega
  rw [hm]
  exact ⟨(takeChunks (bytesPerElem t) m ((file.drop offset).drop (bytesPerElem t))).map
    (decodeElem t), by simp [takeChunks]⟩

/-- Decoding a 64-bit signed element always yields an exact integer. -/
theorem decodeElem_i64 (bytes : List Nat) : ∃ v, decodeElem .i64 bytes = .intv v := by
  by_cases h : leNat bytes < 2 ^ (ntype_to_bits .i64 - 1)
  · exact ⟨(leNat bytes : Int), by simp [decodeElem, isFloat, isSigned, h]⟩
  · exact ⟨(leNat bytes : Int) - 2 ^ ntype_to_bits .i64,
      by simp [decodeElem, isFloat, isSigned, h]⟩

/-- Indexed description of a successful `decodeRows` run: one
    `offset_to_value` entry per schema row, holding `_read_at` of the
    row's span, whose element count is `sizeAt`. -/
theorem decodeRows_ok_get (file : List Nat) :
    ∀ (rows : List HeaderRow) (otv : List (Nat × List HVal)),
      decodeRows file rows = .ok otv →
      otv.length = rows.length ∧
      ∀ i r, rows.get? i = some r →
        ∃ t, binary_to_ntype r.binary = some t ∧
          otv.get? i = some (r.offset, read_at file r.offset (sizeAt rows i) t) := by
  intro rows
  induction rows with
  | nil =>
    intro otv h
    simp [decodeRows] at h
    subst h
    exact ⟨rfl, by intro i r hr; simp at hr⟩
  | cons r rest ih =>
    intro otv h
    unfold decodeRows at h
    revert h
    match hb : binary_to_ntype r.binary with
    | none => intro h; simp at h
    | some t =>
      match hd : decodeRows file rest with
      | .error e => intro h; simp at h
      | .ok tail =>
        intro h
        simp only [Except.ok.injEq] at h
        subst h
        obtain ⟨hlen, hget⟩ := ih tail hd
        constructor
        · simp [hlen]
        · intro i rr hr
          match i with
          | 0 =>
            simp at hr
            subst hr
            refine ⟨t, hb, ?_⟩
            cases rest <;> simp [sizeAt]
          | Nat.succ j =>
            simp only [List.get?_cons_succ] at hr
            obtain ⟨t2, hb2, hof⟩ := hget j rr hr
            refine ⟨t2, hb2, ?_⟩
            have hsz : sizeAt (r :: rest) (j + 1) = sizeAt rest j := by
              simp [sizeAt]
            rw [List.get?_eq_getElem?] at hof
            simp [hsz, hof]

/-- Every `offset_to_value` binding produced by `decodeRows` is a
    `_read_at` result for its key. -/
theorem dictLookup_decodeRows (file : List Nat) (rows : List HeaderRow)
    (otv : List (Nat × List HVal)) (h : decodeRows file rows = .ok otv)
    (k : Nat) (l : List HVal) (hl : dictLookup otv k = some l) :
    ∃ size t, l = read_at file k size t := by
  induction rows generalizing otv with
  | nil =>
    simp [decodeRows] at h
    subst h
    simp [dictLookup] at hl
  | cons r rest ih =>
    unfold decodeRows at h
    revert h
    match hb : binary_to_ntype r.binary with
    | none => intro h; simp at h
    | some t =>
      match hd : decodeRows file rest with
      | .error e => intro h; simp at h
      | .ok tail =>
        intro h
        simp only [Except.ok.injEq] at h
        subst h
        unfold dictLookup at hl
        revert hl
        match hrec : dictLookup tail k with
        | some l2 =>
          intro hl
          simp at hl
          subst hl
          exact ih tail hd hrec
        | none =>
          intro hl
          by_cases hk : r.offset = k
          · simp [hk] at hl
            exact ⟨_, t, by rw [← hl, ← hk]⟩
          · simp [hk] at hl

/-- `decodeRows` succeeds whenever every schema row's binary tag is
    known to `binary_to_ntype`. -/
theorem decodeRows_ok_of_tags (file : List Nat) (rows : List HeaderRow)
    (h : ∀ r ∈ rows, (binary_to_ntype r.binary).isSome) :
    ∃ otv, decodeRows file rows = .ok otv := by
  induction rows with
  | nil => exact ⟨[], rfl⟩
  | cons r rest ih =>
    have hr : (binary_to_ntype r.binary).isSome := h r (by simp)
    obtain ⟨t, ht⟩ := Option.isSome_iff_exists.mp hr
    obtain ⟨tail, htail⟩ := ih (fun x hx => h x (by simp [hx]))
    exact ⟨_, by unfold decodeRows; rw [ht, htail]⟩

/-- A key is present in `offset_to_value` iff some schema row has that
    offset. -/
theorem dictLookup_isSome (file : List Nat) (rows : List HeaderRow)
    (otv : List (Nat × List HVal)) (h : decodeRows file rows = .ok otv)
    (k : Nat) (hk : ∃ r ∈ rows, r.offset = k) : (dictLookup otv k).isSome := by
  induction rows generalizing otv with
  | nil => simp at hk
  | cons r rest ih =>
    unfold decodeRows at h
    revert h
    match hb : binary_to_ntype r.binary with
    | none => intro h; simp at h
    | some t =>
      match hd : decodeRows file rest with
      | .error e => intro h; simp at h
      | .ok tail =>
        intro h
        simp only [Except.ok.injEq] at h
        subst h
        unfold dictLookup
        match hrec : dictLookup tail k with
        | some l2 => simp
        | none =>
          simp only []
          obtain ⟨rr, hmem, hoff⟩ := hk
          rcases List.mem_cons.mp hmem with heq | hmem2
          · subst heq
            simp [hoff]
          · have := ih tail hd ⟨rr, hmem2, hoff⟩
            rw [hrec] at this
            simp at this

/-- Unfolding equation for `applyRequired` on a non-empty offset list. -/
theorem applyRequired_cons (otv : List (Nat × List HVal)) (off : Nat)
    (rest : List Nat) (fields : List HeaderField) :
    applyRequired otv (off :: rest) fields =
      match dictLookup otv off with
      | none => .error .keyError
      | some [] => .error .indexError
      | some (v :: _) =>
        applyRequired otv rest
          (fields.map fun f => if f.row.offset = off then ⟨f.row, some v⟩ else f) := rfl

/-- Successful run of the `Value`-assignment loop: every row whose offset
    lies in the processed offset list ends up holding the first decoded
    element of its `offset_to_value` entry; all other rows are left as
    they were. -/
theorem applyRequired_ok (otv : List (Nat × List HVal)) :
    ∀ (req : List Nat) (fields : List HeaderField),
      (∀ off ∈ req, ∃ v, (dictLookup otv off).bind List.head? = some v) →
      applyRequired otv req fields =
        .ok (fields.map fun f =>
          if f.row.offset ∈ req then
            ⟨f.row, (dictLookup otv f.row.offset).bind List.head?⟩
          else f) := by
  intro req
  induction req with
  | nil =>
    intro fields _
    simp [applyRequired]
  | cons off rest ih =>
    intro fields hall
    obtain ⟨v, hv⟩ := hall off (by simp)
    revert hv
    match hlk : dictLookup otv off with
    | none => intro hv; simp at hv
    | some [] => intro hv; simp at hv
    | some (w :: ws) =>
      intro hv
      have hun : applyRequired otv (off :: rest) fields =
          applyRequired otv rest
            (fields.map fun f => if f.row.offset = off then ⟨f.row, some w⟩ else f) := by
        rw [applyRequired_cons, hlk]
      rw [hun, ih _ (fun o ho => hall o (by simp [ho]))]
      congr 1
      rw [List.map_map]
      apply List.map_congr_left
      intro f _
      by_cases h1 : f.row.offset = off
      · by_cases h2 : f.row.offset ∈ rest
        · have h2o : off ∈ rest := h1 ▸ h2
          simp [h1, h2, h2o, Function.comp]
        · simp [h1, h2, Function.comp, hlk]
      · by_cases h2 : f.row.offset ∈ rest
        · simp [h1, h2, Function.comp]
        · simp [h1, h2, Function.comp]

/-- If every processed offset is a dictionary key but some processed
    offset's decoded span is empty, the `Value`-assignment loop raises
    `IndexError` (`[0]` of an empty array). -/
theorem applyRequired_indexError (otv : List (Nat × List HVal)) :
    ∀ (req : List Nat) (fields : List HeaderField),
      (∀ off ∈ req, (dictLookup otv off).isSome) →
      (∃ off ∈ req, dictLookup otv off = some []) →
      applyRequired otv req fields = .error .indexError := by
  intro req
  induction req with
  | nil =>
    intro fields _ hex
    simp at hex
  | cons off rest ih =>
    intro fields hall hex
    match hlk : dictLookup otv off with
    | none =>
      have := hall off (by simp)
      rw [hlk] at this
      simp at this
    | some [] =>
      rw [applyRequired_cons, hlk]
    | some (w :: ws) =>
      have hun : applyRequired otv (off :: rest) fields =
          applyRequired otv rest
            (fields.map fun f => if f.row.offset = off then ⟨f.row, some w⟩ else f) := by
        rw [applyRequired_cons, hlk]
      rw [hun]
      apply ih
      · exact fun o ho => hall o (by simp [ho])
      · obtain ⟨o, ho, hoe⟩ := hex
        rcases List.mem_cons.mp ho with heq | hmem
        · subst heq
          rw [hlk] at hoe
          simp at hoe
        · exact ⟨o, hmem, hoe⟩

/-- A successful stride computation comes from a successful
    bytes-per-frame computation plus `3 * 8` metadata bytes. -/
theorem get_bytes_per_stride_inv (hm : List HeaderField) (bps : Int)
    (h : get_bytes_per_stride hm = .ok bps) :
    ∃ bpf, get_bytes_per_frame hm = .ok bpf ∧ bps = bpf + 3 * 8 := by
  unfold get_bytes_per_stride at h
  revert h
  match hb : get_bytes_per_frame hm with
  | .error e => intro h; simp at h
  | .ok bpf =>
    intro h
    simp only [Except.ok.injEq] at h
    exact ⟨bpf, rfl, by rw [← h]; rfl⟩

/-- A successful bytes-per-frame computation determines pixel count and
    pixel type, and equals `pixels * (bits / 8)` exactly. -/
theorem get_bytes_per_frame_inv (hm : List HeaderField) (bpf : Int)
    (h : get_bytes_per_frame hm = .ok bpf) :
    ∃ ppf t, get_pixels_per_frame hm = .ok ppf ∧ get_pixel_ntype hm = .ok t ∧
      bpf = ppf * (bytesPerElem t : Int) := by
  unfold get_bytes_per_frame at h
  revert h
  match hp : get_pixels_per_frame hm with
  | .error e => intro h; simp at h
  | .ok ppf =>
    match ht : get_pixel_ntype hm with
    | .error e => intro h; simp at h
    | .ok t =>
      intro h
      simp only [Except.ok.injEq] at h
      refine ⟨ppf, t, rfl, rfl, ?_⟩
      rw [← h]
      have : ((ntype_to_bits t : Int)) / (bits_per_byte : Int) = (bytesPerElem t : Int) := by
        cases t <;> rfl
      rw [this]

/-- A successful pixel count comes from `xdim` and `ydim` header values. -/
theorem get_pixels_per_frame_inv (hm : List HeaderField) (ppf : Int)
    (h : get_pixels_per_frame hm = .ok ppf) :
    ∃ x y, getValueInt hm "xdim" = .ok x ∧ getValueInt hm "ydim" = .ok y ∧
      ppf = x * y := by
  unfold get_pixels_per_frame at h
  revert h
  match hx : getValueInt hm "xdim" with
  | .error e => intro h; simp at h
  | .ok x =>
    match hy : getValueInt hm "ydim" with
    | .error e => intro h; simp at h
    | .ok y =>
      intro h
      simp only [Except.ok.injEq] at h
      exact ⟨x, y, rfl, rfl, h.symm⟩

/-- A successful live frame count determines start offset and stride and
    equals the floor of `(eof - start) / stride`. -/
theorem get_num_frames_inv (s : FileState) (n : Int)
    (h : get_num_frames s = .ok n) :
    ∃ so bps, get_start_offset s.header_metadata = .ok so ∧
      get_bytes_per_stride s.header_metadata = .ok bps ∧
      n = Int.fdiv ((s.file.length : Int) - so) bps := by
  unfold get_num_frames at h
  revert h
  match hso : get_start_offset s.header_metadata with
  | .error e => intro h; simp at h
  | .ok so =>
    match hbps : get_bytes_per_stride s.header_metadata with
    | .error e => intro h; simp at h
    | .ok bps =>
      intro h
      simp only [Except.ok.injEq] at h
      exact ⟨so, bps, rfl, rfl, h.symm⟩

/-- The start offset is non-negative (a schema byte offset plus 2). -/
theorem get_start_offset_nonneg (hm : List HeaderField) (so : Int)
    (h : get_start_offset hm = .ok so) : 0 ≤ so := by
  unfold get_start_offset at h
  revert h
  match hf : findByTypeName hm "lastvalue" with
  | none => intro h; simp at h
  | some f =>
    intro h
    simp only [Except.ok.injEq] at h
    omega

/-- Floor-division floor property: `b * (a.fdiv b) ≤ a` for positive `b`. -/
theorem fdiv_mul_le (a b : Int) (hb : 0 < b) : b * (Int.fdiv a b) ≤ a := by
  have h := Int.fmod_add_fdiv a b
  have hnn : 0 ≤ a.fmod b := Int.fmod_nonneg' a hb
  omega

/-- When the resolved frame lies entirely inside the current file, the
    post-resolution part of `_get_frame` succeeds, and the pixel block is
    exactly `_read_at` of `pixels_per_frame` elements at
    `frame_offset = start_offset + resolved * bytes_per_stride`. -/
theorem readResolvedFrame_ok (file : List Nat) (hm : List HeaderField)
    (ctime : ℚ) (resolved so bps bpf ppf : Int) (t : NType) (x y : Int)
    (hso : get_start_offset hm = .ok so)
    (hbps : get_bytes_per_stride hm = .ok bps)
    (hbpf : get_bytes_per_frame hm = .ok bpf)
    (hppf : get_pixels_per_frame hm = .ok ppf)
    (ht : get_pixel_ntype hm = .ok t)
    (hx : getValueInt hm "xdim" = .ok x)
    (hy : getValueInt hm "ydim" = .ok y)
    (hres0 : 0 ≤ resolved)
    (hso0 : 0 ≤ so)
    (hppfxy : ppf = x * y)
    (hppf0 : 0 ≤ ppf)
    (hbpfval : bpf = ppf * (bytesPerElem t : Int))
    (hbpsval : bps = bpf + 3 * 8)
    (hfit : so + resolved * bps + bps ≤ (file.length : Int)) :
    ∃ md, readResolvedFrame file hm ctime resolved =
      .ok (⟨y, x, read_at file (frame_offset_of so resolved bps).toNat ppf t⟩, md) := by
  have hbpf0 : 0 ≤ bpf := by
    rw [hbpfval]
    exact mul_nonneg hppf0 (by positivity)
  have hbps0 : 0 < bps := by omega
  have hfo0 : 0 ≤ frame_offset_of so resolved bps := by
    unfold frame_offset_of
    have : 0 ≤ resolved * bps := mul_nonneg hres0 (le_of_lt hbps0)
    omega
  set fo : Int := frame_offset_of so resolved bps with hfo_def
  have hfo_le : fo + bpf + 3 * 8 ≤ (file.length : Int) := by
    have h1 : fo + bps ≤ (file.length : Int) := by
      simp only [hfo_def, frame_offset_of]
      omega
    omega
  have hbpe_pos : 0 < bytesPerElem t := bytesPerElem_pos t
  -- the pixel read returns exactly ppf elements
  have hpixlen : (read_at file fo.toNat ppf t).length = ppf.toNat := by
    rw [read_at_length]
    have hnotneg : ¬ ppf < 0 := by omega
    simp only [hnotneg, if_false]
    have havail : ppf.toNat ≤ (file.length - fo.toNat) / bytesPerElem t := by
      rw [Nat.le_div_iff_mul_le hbpe_pos]
      have h5 : ((ppf.toNat * bytesPerElem t + fo.toNat : Nat) : Int) ≤ (file.length : Int) := by
        push_cast
        rw [Int.toNat_of_nonneg hppf0, Int.toNat_of_nonneg hfo0, ← hbpfval]
        omega
      have h6 : ppf.toNat * bytesPerElem t + fo.toNat ≤ file.length := by exact_mod_cast h5
      omega
    omega
  -- the three metadata reads each return one int64 element
  have hmd : ∀ k : Nat, k + 1 ≤ 3 →
      ∃ v rest, read_at file (fo + bpf + 8 * k).toNat 1 .i64 = .intv v :: rest := by
    intro k hk
    have hoff0 : 0 ≤ fo + bpf + 8 * k := by positivity
    have hle : (fo + bpf + 8 * k).toNat + bytesPerElem .i64 ≤ file.length := by
      have : (fo + bpf + 8 * k).toNat + (8 : Int) ≤ (file.length : Int) := by
        rw [Int.toNat_of_nonneg hoff0]
        have : (k : Int) ≤ 2 := by exact_mod_cast Nat.le_of_succ_le_succ hk
        omega
      have hb8 : bytesPerElem .i64 = 8 := rfl
      omega
    obtain ⟨rest, hrest⟩ := read_at_head file (fo + bpf + 8 * k).toNat 1 .i64 (by norm_num) hle
    obtain ⟨v, hv⟩ := decodeElem_i64 ((file.drop ((fo + bpf + 8 * k).toNat)).take (bytesPerElem .i64))
    exact ⟨v, rest, by rw [hrest, hv]⟩
  obtain ⟨v0, r0, hv0⟩ := hmd 0 (by norm_num)
  obtain ⟨v1, r1, hv1⟩ := hmd 1 (by norm_num)
  obtain ⟨v2, r2, hv2⟩ := hmd 2 (by norm_num)
  refine ⟨⟨ctime + (v0 : ℚ) / (ticks_per_second : ℚ),
           ctime + (v1 : ℚ) / (ticks_per_second : ℚ), v2⟩, ?_⟩
  unfold readResolvedFrame
  rw [hso, hbps, hbpf, hppf, ht, hx, hy]
  simp only [← hfo_def]
  rw [if_neg (by omega)]
  have hresh : ¬ ((read_at file fo.toNat ppf t).length : Int) ≠ y * x := by
    rw [hpixlen, Int.toNat_of_nonneg hppf0, hppfxy]
    ring_nf
    simp
  rw [if_neg hresh]
  have hmo0 : ¬ metadata_offset_of fo bpf < 0 := by
    unfold metadata_offset_of
    omega
  rw [if_neg hmo0]
  have hv0a : read_at file (fo + bpf).toNat 1 .i64 = .intv v0 :: r0 := by
    have h : fo + bpf + 8 * ((0 : Nat) : Int) = fo + bpf := by norm_num
    rwa [h] at hv0
  have hv1a : read_at file (fo + bpf + 8).toNat 1 .i64 = .intv v1 :: r1 := by
    have h : fo + bpf + 8 * ((1 : Nat) : Int) = fo + bpf + 8 := by push_cast; ring
    rwa [h] at hv1
  have hv2a : read_at file (fo + bpf + 8 + 8).toNat 1 .i64 = .intv v2 :: r2 := by
    have h : fo + bpf + 8 * ((2 : Nat) : Int) = fo + bpf + 8 + 8 := by push_cast; ring
    rwa [h] at hv2
  have hmda : metadata_offset_of fo bpf = fo + bpf := rfl
  have hgb : get_bytes_per_metadata_elt = (8 : Int) := by decide
  rw [hmda, hgb, hv0a, hv1a, hv2a]

/-- Unfolding of `_get_frame` once the live frame count is known. -/
theorem get_frame_eq_of_num (ctime : ℚ) (s : FileState) (idx n : Int)
    (hn : get_num_frames s = .ok n) :
    get_frame ctime s idx =
      if n = 0 then (s, .error .zeroDivisionError)
      else
        ({ s with current_frame_idx := Int.fmod idx n },
         readResolvedFrame s.file s.header_metadata ctime (Int.fmod idx n)) := by
  unfold get_frame
  rw [hn]

/-- Inversion of a successful `readResolvedFrame` with known geometry:
    the returned pixel block is `_read_at` of `pixels_per_frame` elements
    at `frame_offset = start_offset + resolved * bytes_per_stride`. -/
theorem readResolvedFrame_pixels (file : List Nat) (hm : List HeaderField)
    (ctime : ℚ) (resolved : Int) (fr : Frame) (md : FrameMetadata)
    (so bps bpf ppf : Int) (t : NType) (x y : Int)
    (hso : get_start_offset hm = .ok so)
    (hbps : get_bytes_per_stride hm = .ok bps)
    (hbpf : get_bytes_per_frame hm = .ok bpf)
    (hppf : get_pixels_per_frame hm = .ok ppf)
    (ht : get_pixel_ntype hm = .ok t)
    (hx : getValueInt hm "xdim" = .ok x)
    (hy : getValueInt hm "ydim" = .ok y)
    (h : readResolvedFrame file hm ctime resolved = .ok (fr, md)) :
    fr.pixels = read_at file (frame_offset_of so resolved bps).toNat ppf t := by
  unfold readResolvedFrame at h
  rw [hso, hbps, hbpf, hppf, ht, hx, hy] at h
  repeat (split at h <;> try simp at h)
  obtain ⟨h1, -⟩ := h
  rw [← h1]
  simp_all

/-! ## Claims -/

/-- C1: on every invocation the frame count is
    `floor((eof_offset - start_offset) / bytes_per_stride)` with the
    end-of-file offset read live during that invocation (so the count
    follows any growth of the stream), a partially-written trailing
    stride is discarded, and the count never exceeds the number of
    complete strides present at that moment. -/
theorem num_frames_live_floor (s : FileState) (so bps : Int)
    (hso : get_start_offset s.header_metadata = .ok so)
    (hbps : get_bytes_per_stride s.header_metadata = .ok bps)
    (hpos : 0 < bps) :
    get_num_frames s = .ok (Int.fdiv ((get_eof_offset s.file : Int) - so) bps) ∧
    (∀ n, get_num_frames s = .ok n →
      bps * n ≤ (s.file.length : Int) - so ∧
      n ≤ (completeStrides s.file so.toNat bps.toNat : Int)) ∧
    (∀ bytes : List Nat,
      get_num_frames { s with file := s.file ++ bytes } =
        .ok (Int.fdiv (((s.file.length : Int) + bytes.length) - so) bps)) := by
  have h1 : get_num_frames s = .ok (Int.fdiv ((get_eof_offset s.file : Int) - so) bps) := by
    unfold get_num_frames
    rw [hso, hbps]
  refine ⟨h1, ?_, ?_⟩
  · intro n hn2
    rw [h1] at hn2
    have hn3 : n = Int.fdiv ((s.file.length : Int) - so) bps := by
      have := hn2
      simp only [Except.ok.injEq, get_eof_offset] at this
      exact this.symm
    constructor
    · rw [hn3]
      exact fdiv_mul_le _ _ hpos
    · rw [hn3]
      by_cases hcase : (s.file.length : Int) - so < 0
      · have hneg : bps * Int.fdiv ((s.file.length : Int) - so) bps ≤
            (s.file.length : Int) - so := fdiv_mul_le _ _ hpos
        have hlt : Int.fdiv ((s.file.length : Int) - so) bps < 0 := by
          by_contra hge
          push_neg at hge
          nlinarith
        have h0 : (0 : Int) ≤ (completeStrides s.file so.toNat bps.toNat : Int) := by
          positivity
        omega
      · push_neg at hcase
        have hso0 : 0 ≤ so := get_start_offset_nonneg _ _ hso
        have hle : so.toNat ≤ s.file.length := by omega
        have heq : Int.fdiv ((s.file.length : Int) - so) bps =
            ((s.file.length - so.toNat) / bps.toNat : Nat) := by
          rw [Int.fdiv_eq_ediv _ (le_of_lt hpos), Int.ofNat_ediv,
            Nat.cast_sub hle, Int.toNat_of_nonneg hso0,
            Int.toNat_of_nonneg (le_of_lt hpos)]
        rw [heq]
        exact le_refl _
  · intro bytes
    unfold get_num_frames
    rw [hso, hbps]
    simp [get_eof_offset]

/-- C1 witness: a 40-byte stream over `hm0` (start offset 12, stride 28)
    holds one complete stride, and still reports lively after growing by a
    partial stride of 10 bytes. -/
theorem num_frames_live_floor_witness :
    get_start_offset st1.header_metadata = .ok 12 ∧
    get_bytes_per_stride st1.header_metadata = .ok 28 ∧
    get_num_frames st1 = .ok 1 ∧
    (28 : Int) * 1 ≤ (st1.file.length : Int) - 12 ∧
    (1 : Int) ≤ (completeStrides st1.file 12 28 : Int) ∧
    get_num_frames { st1 with file := st1.file ++ List.replicate 10 0 } = .ok 1 := by
  have h := num_frames_live_floor st1 12 28 (by decide) (by decide) (by decide)
  have hn : get_num_frames st1 = .ok 1 := by
    rw [h.1]
    decide
  have hineq := h.2.1 1 hn
  have happ := h.2.2 (List.replicate 10 0)
  refine ⟨by decide, by decide, hn, ?_, ?_, ?_⟩
  · simpa using hineq.1
  · simpa using hineq.2
  · rw [happ]
    decide

/-- C3: for a session whose live frame count is `n ≥ 1`, `_get_frame`
    applied to `i + k * n` behaves exactly as applied to `i` — same
    resulting state and same returned pixels and metadata — i.e. index
    resolution is congruence modulo the current frame count. -/
theorem read_frame_index_congruence (ctime : ℚ) (s : FileState) (i k n : Int)
    (hn : get_num_frames s = .ok n) (hn1 : 1 ≤ n) :
    get_frame ctime s (i + k * n) = get_frame ctime s i := by
  have hne : ¬ n = 0 := by omega
  rw [get_frame_eq_of_num ctime s (i + k * n) n hn,
    get_frame_eq_of_num ctime s i n hn, if_neg hne, if_neg hne]
  have hmod : Int.fmod (i + k * n) n = Int.fmod i n := by
    rw [Int.fmod_eq_emod _ (by omega), Int.fmod_eq_emod _ (by omega),
      Int.add_mul_emod_self]
  rw [hmod]

/-- C3 witness: on the one-frame session `st1`, reading frame `3 + 2·1`
    is identical to reading frame `3`. -/
theorem read_frame_index_congruence_witness :
    get_num_frames st1 = .ok 1 ∧ (1 : Int) ≤ 1 ∧
    get_frame 0 st1 (3 + 2 * 1) = get_frame 0 st1 3 :=
  ⟨by decide, by decide,
    read_frame_index_congruence 0 st1 3 2 1 (by decide) (by decide)⟩

/-- C7: when the live frame count is zero, `frame_idx % num_frames`
    raises before anything else happens: every index fails with the one
    error `ZeroDivisionError` and the session state — in particular its
    last-read index — is returned unchanged, so the session stays
    usable. -/
theorem zero_frames_single_error_state_preserved (ctime : ℚ) (s : FileState)
    (hn : get_num_frames s = .ok 0) :
    ∀ idx : Int, get_frame ctime s idx = (s, .error .zeroDivisionError) := by
  intro idx
  rw [get_frame_eq_of_num ctime s idx 0 hn]
  simp

/-- C7 witness: `stEmpty` (stream ends exactly at the start offset) has
    zero frames; reading index `-3` fails with the single error and
    leaves the state, including `current_frame_idx = 5`, untouched. -/
theorem zero_frames_single_error_state_preserved_witness :
    get_num_frames stEmpty = .ok 0 ∧
    get_frame 0 stEmpty (-3) = (stEmpty, .error .zeroDivisionError) ∧
    stEmpty.current_frame_idx = 5 :=
  ⟨by decide,
    zero_frames_single_error_state_preserved 0 stEmpty (by decide) (-3),
    by decide⟩

/-- C9: with `n ≥ 1` frames, the stored resolved index is the Python
    non-negative modulus — always in `[0, n)` — and in particular index
    `-n` resolves to frame 0. -/
theorem negative_full_index_resolves_to_zero (ctime : ℚ) (s : FileState) (n : Int)
    (hn : get_num_frames s = .ok n) (hn1 : 1 ≤ n) :
    (get_frame ctime s (-n)).1.current_frame_idx = 0 ∧
    ∀ i : Int, 0 ≤ (get_frame ctime s i).1.current_frame_idx ∧
      (get_frame ctime s i).1.current_frame_idx < n := by
  have hne : ¬ n = 0 := by omega
  have hstate : ∀ i : Int, (get_frame ctime s i).1.current_frame_idx = Int.fmod i n := by
    intro i
    rw [get_frame_eq_of_num ctime s i n hn, if_neg hne]
  constructor
  · rw [hstate, Int.fmod_eq_emod _ (by omega)]
    exact Int.emod_eq_zero_of_dvd ⟨-1, by ring⟩
  · intro i
    rw [hstate]
    exact ⟨Int.fmod_nonneg' i (by omega), Int.fmod_lt_of_pos i (by omega)⟩

/-- C9 witness: on the one-frame session `st1`, reading index `-1`
    stores resolved index 0, which lies in `[0, 1)`. -/
theorem negative_full_index_resolves_to_zero_witness :
    get_num_frames st1 = .ok 1 ∧
    (get_frame 0 st1 (-1)).1.current_frame_idx = 0 ∧
    0 ≤ (get_frame 0 st1 7).1.current_frame_idx ∧
    (get_frame 0 st1 7).1.current_frame_idx < 1 := by
  have h := negative_full_index_resolves_to_zero 0 st1 1 (by decide) (by decide)
  exact ⟨by decide, by simpa using h.1, (h.2 7).1, (h.2 7).2⟩

/-- C5 counterexample: on `stShort` (stream shorter than the start
    offset, so the frame count is `-1` and every read runs past the live
    end-of-file) the call `_get_frame(3)` fails — with a `ValueError`
    from `reshape`, not a dedicated frame-read error — yet the session's
    last-read index has been changed from its prior value 5 to the
    resolved index 0: the failing call does mutate the state the claim
    says is left untouched. -/
theorem failed_read_mutates_current_frame_idx :
    stShort.current_frame_idx = 5 ∧
    (get_frame 0 stShort 3).2 = .error .valueError ∧
    (get_frame 0 stShort 3).1.current_frame_idx = 0 :=
  ⟨by decide, by decide, by decide⟩

/-- C5 amended: a frame-read call that fails after index resolution (any
    seek or read past the live end-of-file happens only then) leaves the
    session's last-read index equal to the freshly resolved index
    `frame_idx % num_frames` — the assignment precedes the reads — rather
    than to its value before the call. -/
theorem failed_read_sets_resolved_index (ctime : ℚ) (s : FileState)
    (idx n : Int) (e : SpeError)
    (hn : get_num_frames s = .ok n) (hn0 : n ≠ 0)
    (_he : (get_frame ctime s idx).2 = .error e) :
    (get_frame ctime s idx).1.current_frame_idx = Int.fmod idx n := by
  rw [get_frame_eq_of_num ctime s idx n hn, if_neg hn0]

/-- C5 witness: the concrete failing call of the counterexample indeed
    ends with the last-read index set to `3 % (-1) = 0`. -/
theorem failed_read_sets_resolved_index_witness :
    get_num_frames stShort = .ok (-1) ∧
    (get_frame 0 stShort 3).2 = .error .valueError ∧
    (get_frame 0 stShort 3).1.current_frame_idx = Int.fmod 3 (-1) :=
  ⟨by decide, by decide,
    failed_read_sets_resolved_index 0 stShort 3 (-1) .valueError
      (by decide) (by decide) (by decide)⟩

/-- C2: with a decoded header, `start_offset` is the byte offset of the
    `lastvalue` header row plus 2, `bytes_per_stride` is
    `bytes_per_frame + 3 * 8`, and for every resolved index the frame
    address is `start_offset + resolved * bytes_per_stride` with the
    per-frame metadata at `frame_offset + bytes_per_frame`; a successful
    frame read returns exactly the pixels `_read_at` that frame
    address. -/
theorem frame_and_metadata_addresses (hm : List HeaderField)
    (f : HeaderField) (bpf : Int)
    (hf : findByTypeName hm "lastvalue" = some f)
    (hbpf : get_bytes_per_frame hm = .ok bpf) :
    get_start_offset hm = .ok ((f.row.offset : Int) + 2) ∧
    get_bytes_per_stride hm = .ok (bpf + 3 * 8) ∧
    (∀ resolved : Int,
      frame_offset_of ((f.row.offset : Int) + 2) resolved (bpf + 3 * 8) =
        ((f.row.offset : Int) + 2) + resolved * (bpf + 3 * 8) ∧
      metadata_offset_of
          (frame_offset_of ((f.row.offset : Int) + 2) resolved (bpf + 3 * 8)) bpf =
        ((f.row.offset : Int) + 2) + resolved * (bpf + 3 * 8) + bpf) ∧
    (∀ (file : List Nat) (ctime : ℚ) (resolved : Int) (fr : Frame)
        (md : FrameMetadata),
      readResolvedFrame file hm ctime resolved = .ok (fr, md) →
      ∃ ppf t, get_pixels_per_frame hm = .ok ppf ∧ get_pixel_ntype hm = .ok t ∧
        fr.pixels = read_at file
          (frame_offset_of ((f.row.offset : Int) + 2) resolved
            (bpf + 3 * 8)).toNat ppf t) := by
  have hso : get_start_offset hm = .ok ((f.row.offset : Int) + 2) := by
    unfold get_start_offset
    rw [hf]
  have hstr : get_bytes_per_stride hm = .ok (bpf + 3 * 8) := by
    unfold get_bytes_per_stride
    rw [hbpf]
    have h24 : (num_metadata : Int) * get_bytes_per_metadata_elt = 3 * 8 := by decide
    rw [h24]
  obtain ⟨ppf, t, hppf, ht, hval⟩ := get_bytes_per_frame_inv hm bpf hbpf
  obtain ⟨x, y, hx, hy, hxy⟩ := get_pixels_per_frame_inv hm ppf hppf
  refine ⟨hso, hstr, fun resolved => ⟨rfl, rfl⟩, ?_⟩
  intro file ctime resolved fr md h
  refine ⟨ppf, t, hppf, ht, ?_⟩
  exact readResolvedFrame_pixels file hm ctime resolved fr md
    ((f.row.offset : Int) + 2) (bpf + 3 * 8) bpf ppf t x y
    hso hstr hbpf hppf ht hx hy h

/-- C2 witness: on the small header table `hm0` (`lastvalue` at offset
    10, `bytes_per_frame = 4`) the start offset is 12, the stride is 28,
    and the addresses of resolved frame 1 are `12 + 1·28 = 40` and
    `40 + 4 = 44`. -/
theorem frame_and_metadata_addresses_witness :
    findByTypeName hm0 "lastvalue" = some ⟨⟨10, "16u", "lastvalue"⟩, none⟩ ∧
    get_bytes_per_frame hm0 = .ok 4 ∧
    get_start_offset hm0 = .ok 12 ∧
    get_bytes_per_stride hm0 = .ok (4 + 3 * 8) ∧
    frame_offset_of 12 1 (4 + 3 * 8) = 12 + 1 * (4 + 3 * 8) ∧
    metadata_offset_of (frame_offset_of 12 1 (4 + 3 * 8)) 4 =
      12 + 1 * (4 + 3 * 8) + 4 := by
  have h := frame_and_metadata_addresses hm0 ⟨⟨10, "16u", "lastvalue"⟩, none⟩ 4
    (by decide) (by decide)
  refine ⟨by decide, by decide, ?_, ?_, ?_, ?_⟩
  · have := h.1
    simpa using this
  · have := h.2.1
    simpa using this
  · have := (h.2.2.1 1).1
    simpa using this
  · have := (h.2.2.1 1).2
    simpa using this

/-- If some processed offset is missing from `offset_to_value` or has an
    empty decoded span, the `Value`-assignment loop raises. -/
theorem applyRequired_fails (otv : List (Nat × List HVal)) :
    ∀ (req : List Nat) (fields : List HeaderField),
      (∃ off ∈ req, dictLookup otv off = none ∨ dictLookup otv off = some []) →
      ∃ e, applyRequired otv req fields = .error e := by
  intro req
  induction req with
  | nil =>
    intro fields hex
    simp at hex
  | cons off rest ih =>
    intro fields hex
    match hlk : dictLookup otv off with
    | none =>
      exact ⟨.keyError, by rw [applyRequired_cons, hlk]⟩
    | some [] =>
      exact ⟨.indexError, by rw [applyRequired_cons, hlk]⟩
    | some (w :: ws) =>
      have hbad : ∃ o ∈ rest, dictLookup otv o = none ∨ dictLookup otv o = some [] := by
        obtain ⟨o, ho, hoe⟩ := hex
        rcases List.mem_cons.mp ho with heq | hmem
        · subst heq
          rw [hlk] at hoe
          simp at hoe
        · exact ⟨o, hmem, hoe⟩
      obtain ⟨e, he⟩ := ih _ hbad
      exact ⟨e, by
        rw [applyRequired_cons, hlk]
        exact he⟩

/-- `_load_header_metadata` is the required-value assignment applied to
    the decoded rows. -/
theorem load_header_metadata_eq (file : List Nat) (rows : List HeaderRow)
    (otv : List (Nat × List HVal)) (hdec : decodeRows file rows = .ok otv) :
    load_header_metadata file rows =
      applyRequired otv spe_30_required_offsets
        (rows.map fun r => ⟨r, none⟩) := by
  unfold load_header_metadata
  rw [hdec]

/-- `_load_header_metadata` propagates a decode failure. -/
theorem load_header_metadata_err (file : List Nat) (rows : List HeaderRow)
    (e : SpeError) (hdec : decodeRows file rows = .error e) :
    load_header_metadata file rows = .error e := by
  unfold load_header_metadata
  rw [hdec]

/-- C6: a stream shorter than the byte position of the last required
    header offset (4098) makes session construction fail — the span read
    for that offset is empty, so the required-value assignment raises
    (`IndexError`, or `KeyError` earlier if the schema itself is
    unusable) — and `File.__init__` therefore never returns a session
    object at all. -/
theorem truncated_header_fails_init (rows : List HeaderRow) (file : List Nat)
    (htrunc : file.length < 4098) :
    (File.init rows file).toBool = false := by
  unfold File.init
  match hd : load_header_metadata file rows with
  | .error e => rfl
  | .ok hm =>
    exfalso
    match hdec : decodeRows file rows with
    | .error e =>
      rw [load_header_metadata_err file rows e hdec] at hd
      exact Except.noConfusion hd
    | .ok otv =>
      rw [load_header_metadata_eq file rows otv hdec] at hd
      have hbad : ∃ off ∈ spe_30_required_offsets,
          dictLookup otv off = none ∨ dictLookup otv off = some [] := by
        refine ⟨4098, by decide, ?_⟩
        match hlk : dictLookup otv 4098 with
        | none => exact Or.inl rfl
        | some l =>
          obtain ⟨size, t, hl⟩ := dictLookup_decodeRows file rows otv hdec 4098 l hlk
          have : l = [] := by
            rw [hl]
            exact read_at_nil file 4098 size t (by omega)
          exact Or.inr (by rw [this])
      obtain ⟨e, he⟩ := applyRequired_fails otv spe_30_required_offsets
        (rows.map fun r => ⟨r, none⟩) hbad
      rw [he] at hd
      exact Except.noConfusion hd

/-- C6 witness: the schema `wrows` against a 100-byte stream (shorter
    than offset 4098) fails construction. -/
theorem truncated_header_fails_init_witness :
    (List.replicate 100 0 : List Nat).length < 4098 ∧
    (File.init wrows (List.replicate 100 0)).toBool = false :=
  ⟨by decide, truncated_header_fails_init wrows (List.replicate 100 0) (by decide)⟩

theorem decode_wrows : decodeRows wfile wrows = .ok wotv := rfl

set_option maxRecDepth 4000 in
theorem wfile_length : wfile.length = 4128 := by
  simp only [wfile, List.length_append, List.length_replicate, List.length_cons,
    List.length_nil]

theorem drop_append_len (A B : List Nat) (k : Nat) (h : A.length ≤ k) :
    (A ++ B).drop k = B.drop (k - A.length) := by
  have h2 : k = A.length + (k - A.length) := by omega
  calc (A ++ B).drop k = (A ++ B).drop (A.length + (k - A.length)) := by rw [← h2]
    _ = B.drop (k - A.length) := List.drop_append _

theorem front_window (A B : List Nat) (k n : Nat) (h : k + n ≤ A.length) :
    ((A ++ B).drop k).take n = (A.drop k).take n := by
  rw [List.drop_append_of_le_length (by omega),
    List.take_append_of_le_length (by rw [List.length_drop]; omega)]

theorem lenP1 : (List.replicate 42 0 ++ [2] : List Nat).length = 43 := by
  simp only [List.length_append, List.length_replicate, List.length_cons,
    List.length_nil]

theorem lenP2 : (List.replicate 42 0 ++ [2] ++ List.replicate 65 0 :
    List Nat).length = 108 := by
  simp only [List.length_append, List.length_replicate, List.length_cons,
    List.length_nil]

theorem lenP3 : (List.replicate 42 0 ++ [2] ++ List.replicate 65 0 ++ [3] :
    List Nat).length = 109 := by
  simp only [List.length_append, List.length_replicate, List.length_cons,
    List.length_nil]

theorem lenP4 : (List.replicate 42 0 ++ [2] ++ List.replicate 65 0 ++ [3] ++
    List.replicate 547 0 : List Nat).length = 656 := by
  simp only [List.length_append, List.length_replicate, List.length_cons,
    List.length_nil]

theorem lenP5 : (List.replicate 42 0 ++ [2] ++ List.replicate 65 0 ++ [3] ++
    List.replicate 547 0 ++ [1] : List Nat).length = 657 := by
  simp only [List.length_append, List.length_replicate, List.length_cons,
    List.length_nil]

theorem wfile_window_low (k n : Nat) (h : k + n ≤ 42) :
    (wfile.drop k).take n = List.replicate n 0 := by
  show ((_ ++ List.replicate 3471 0).drop k).take n = _
  rw [front_window _ _ k n (by rw [lenP5]; try omega),
    front_window _ _ k n (by rw [lenP4]; try omega),
    front_window _ _ k n (by rw [lenP3]; try omega),
    front_window _ _ k n (by rw [lenP2]; try omega),
    front_window _ _ k n (by rw [lenP1]; try omega),
    front_window _ _ k n (by rw [List.length_replicate]; try omega),
    List.drop_replicate, List.take_replicate]
  congr 1
  omega

theorem win42 : (wfile.drop 42).take 2 = [2, 0] := by
  show ((_ ++ List.replicate 3471 0).drop 42).take 2 = _
  rw [front_window _ _ 42 2 (by rw [lenP5]; try omega),
    front_window _ _ 42 2 (by rw [lenP4]; try omega),
    front_window _ _ 42 2 (by rw [lenP3]; try omega),
    front_window _ _ 42 2 (by rw [lenP2]; try omega),
    List.drop_append_of_le_length (by rw [lenP1]; try omega),
    drop_append_len (List.replicate 42 0) [2] 42
      (by rw [List.length_replicate]; try omega)]
  rfl

theorem win108 : (wfile.drop 108).take 2 = [3, 0] := by
  show ((_ ++ List.replicate 3471 0).drop 108).take 2 = _
  rw [front_window _ _ 108 2 (by rw [lenP5]; try omega),
    front_window _ _ 108 2 (by rw [lenP4]; try omega),
    List.drop_append_of_le_length (by rw [lenP3]; try omega),
    List.drop_append_of_le_length (by rw [lenP2]; try omega),
    List.drop_eq_nil_of_le (by rw [lenP2]; try omega),
    List.nil_append, List.singleton_append, List.take_succ_cons]
  rfl

theorem win656 : (wfile.drop 656).take 2 = [1, 0] := by
  show ((_ ++ List.replicate 3471 0).drop 656).take 2 = _
  rw [List.drop_append_of_le_length (by rw [lenP5]; try omega),
    List.drop_append_of_le_length (by rw [lenP4]; try omega),
    List.drop_eq_nil_of_le (by rw [lenP4]; try omega),
    List.nil_append, List.singleton_append, List.take_succ_cons]
  rfl

theorem wfile_window_late (k n : Nat) (h1 : 657 ≤ k) (h2 : k + n ≤ 4128) :
    (wfile.drop k).take n = List.replicate n 0 := by
  show ((_ ++ List.replicate 3471 0).drop k).take n = _
  rw [drop_append_len _ _ k (by rw [lenP5]; try omega), lenP5,
    List.drop_replicate, List.take_replicate]
  congr 1
  omega

theorem dict_head_val (k : Nat) (size : Int) (t : NType) (w : List Nat) (v : HVal)
    (hd : dictLookup wotv k = some (read_at wfile k size t))
    (hsz : 1 ≤ size) (hlen : k + bytesPerElem t ≤ 4128)
    (hwin : (wfile.drop k).take (bytesPerElem t) = w)
    (hv : decodeElem t w = v) :
    (dictLookup wotv k).bind List.head? = some v := by
  obtain ⟨rest, hr⟩ := read_at_head wfile k size t hsz (by rw [wfile_length]; omega)
  rw [hd, hr, hwin, hv]
  rfl

theorem hv6 : (dictLookup wotv 6).bind List.head? = some (HVal.intv 0) :=
  dict_head_val 6 1 .u8 _ _ rfl (by norm_num) (by decide)
    (wfile_window_low 6 1 (by omega)) (by decide)

theorem hv18 : (dictLookup wotv 18).bind List.head? = some (HVal.intv 0) :=
  dict_head_val 18 15 .u8 _ _ rfl (by norm_num) (by decide)
    (wfile_window_low 18 1 (by omega)) (by decide)

theorem hv34 : (dictLookup wotv 34).bind List.head? = some (HVal.intv 0) :=
  dict_head_val 34 7 .u8 _ _ rfl (by norm_num) (by decide)
    (wfile_window_low 34 1 (by omega)) (by decide)

theorem hv42 : (dictLookup wotv 42).bind List.head? = some (HVal.intv 2) :=
  dict_head_val 42 65 .u16 _ _ rfl (by norm_num) (by decide) win42 (by decide)

theorem hv108 : (dictLookup wotv 108).bind List.head? = some (HVal.intv 3) :=
  dict_head_val 108 547 .u16 _ _ rfl (by norm_num) (by decide) win108 (by decide)

theorem hv656 : (dictLookup wotv 656).bind List.head? = some (HVal.intv 1) :=
  dict_head_val 656 1 .u16 _ _ rfl (by norm_num) (by decide) win656 (by decide)

theorem hv658 : (dictLookup wotv 658).bind List.head? = some (HVal.intv 0) :=
  dict_head_val 658 5 .u8 _ _ rfl (by norm_num) (by decide)
    (wfile_window_late 658 1 (by omega) (by omega)) (by decide)

theorem hv664 : (dictLookup wotv 664).bind List.head? = some (HVal.intv 0) :=
  dict_head_val 664 13 .u8 _ _ rfl (by norm_num) (by decide)
    (wfile_window_late 664 1 (by omega) (by omega)) (by decide)

theorem hv678 : (dictLookup wotv 678).bind List.head? = some (HVal.intv 0) :=
  dict_head_val 678 767 .u64 _ _ rfl (by norm_num) (by decide)
    (wfile_window_late 678 8 (by omega) (by omega)) (by decide)

theorem hv1446 : (dictLookup wotv 1446).bind List.head? = some (HVal.intv 0) :=
  dict_head_val 1446 545 .u8 _ _ rfl (by norm_num) (by decide)
    (wfile_window_late 1446 1 (by omega) (by omega)) (by decide)

theorem hv1992 : (dictLookup wotv 1992).bind List.head? = some (HVal.intv 0) :=
  dict_head_val 1992 1003 .u8 _ _ rfl (by norm_num) (by decide)
    (wfile_window_late 1992 1 (by omega) (by omega)) (by decide)

theorem hv2996 : (dictLookup wotv 2996).bind List.head? = some (HVal.intv 0) :=
  dict_head_val 2996 1101 .u8 _ _ rfl (by norm_num) (by decide)
    (wfile_window_late 2996 1 (by omega) (by omega)) (by decide)

theorem hv4098 : (dictLookup wotv 4098).bind List.head? = some (HVal.intv 0) :=
  dict_head_val 4098 1 .u16 _ _ rfl (by norm_num) (by decide)
    (wfile_window_late 4098 2 (by omega) (by omega)) (by decide)

theorem hall_req : ∀ off ∈ spe_30_required_offsets,
    ∃ v, (dictLookup wotv off).bind List.head? = some v := by
  intro off hoff
  simp only [spe_30_required_offsets, List.mem_cons, List.not_mem_nil,
    or_false] at hoff
  rcases hoff with h|h|h|h|h|h|h|h|h|h|h|h|h <;> subst h
  exacts [⟨_, hv6⟩, ⟨_, hv18⟩, ⟨_, hv34⟩, ⟨_, hv42⟩, ⟨_, hv108⟩, ⟨_, hv656⟩,
    ⟨_, hv658⟩, ⟨_, hv664⟩, ⟨_, hv678⟩, ⟨_, hv1446⟩, ⟨_, hv1992⟩,
    ⟨_, hv2996⟩, ⟨_, hv4098⟩]

set_option maxRecDepth 8000 in
theorem load_wfile : load_header_metadata wfile wrows = .ok whm := by
  rw [load_header_metadata_eq wfile wrows wotv decode_wrows,
    applyRequired_ok wotv spe_30_required_offsets _ hall_req]
  refine congrArg Except.ok ?_
  rw [List.map_map]
  simp only [wrows, List.map_cons, List.map_nil, Function.comp]
  have m6 : (6 : Nat) ∈ spe_30_required_offsets := by decide
  have m8 : ¬ (8 : Nat) ∈ spe_30_required_offsets := by decide
  have m18 : (18 : Nat) ∈ spe_30_required_offsets := by decide
  have m34 : (34 : Nat) ∈ spe_30_required_offsets := by decide
  have m42 : (42 : Nat) ∈ spe_30_required_offsets := by decide
  have m108 : (108 : Nat) ∈ spe_30_required_offsets := by decide
  have m656 : (656 : Nat) ∈ spe_30_required_offsets := by decide
  have m658 : (658 : Nat) ∈ spe_30_required_offsets := by decide
  have m664 : (664 : Nat) ∈ spe_30_required_offsets := by decide
  have m678 : (678 : Nat) ∈ spe_30_required_offsets := by decide
  have m1446 : (1446 : Nat) ∈ spe_30_required_offsets := by decide
  have m1992 : (1992 : Nat) ∈ spe_30_required_offsets := by decide
  have m2996 : (2996 : Nat) ∈ spe_30_required_offsets := by decide
  have m4098 : (4098 : Nat) ∈ spe_30_required_offsets := by decide
  rw [if_pos m6, if_neg m8, if_pos m18, if_pos m34, if_pos m42, if_pos m108,
    if_pos m656, if_pos m658, if_pos m664, if_pos m678, if_pos m1446,
    if_pos m1992, if_pos m2996, if_pos m4098]
  rw [hv6, hv18, hv34, hv42, hv108, hv656, hv658, hv664, hv678, hv1446,
    hv1992, hv2996, hv4098]
  rfl


/-- Inversion of a successful `Value`-assignment run: every processed
    offset had a non-empty `offset_to_value` entry. -/
theorem applyRequired_ok_inv (otv : List (Nat × List HVal)) :
    ∀ (req : List Nat) (fields out : List HeaderField),
      applyRequired otv req fields = .ok out →
      ∀ off ∈ req, ∃ v, (dictLookup otv off).bind List.head? = some v := by
  intro req
  induction req with
  | nil =>
    intro fields out h off hoff
    simp at hoff
  | cons o rest ih =>
    intro fields out h off hoff
    match hlk : dictLookup otv o with
    | none =>
      rw [applyRequired_cons, hlk] at h
      exact Except.noConfusion h
    | some [] =>
      rw [applyRequired_cons, hlk] at h
      exact Except.noConfusion h
    | some (w :: ws) =>
      rw [applyRequired_cons, hlk] at h
      rcases List.mem_cons.mp hoff with heq | hmem
      · subst heq
        exact ⟨w, by rw [hlk]; rfl⟩
      · exact ih _ _ h off hmem

/-- `_load_footer_metadata` when the `XMLOffset` header value is zero:
    no footer attribute, one informational message, no exception. -/
theorem load_footer_metadata_zero (file : List Nat) (hm : List HeaderField)
    (f : HeaderField) (hxf : findByTypeName hm "XMLOffset" = some f)
    (hv : f.value = some (.intv 0)) :
    load_footer_metadata file hm =
      .ok (none, ["INFO: XML footer metadata is empty"]) := by
  simp only [load_footer_metadata, hxf, hv]
  rfl

/-- `File.__init__` in terms of its two loading phases. -/
theorem init_eq (rows : List HeaderRow) (file : List Nat)
    (hm : List HeaderField) (fm : Option (List Nat)) (info : List String)
    (hload : load_header_metadata file rows = .ok hm)
    (hfoot : load_footer_metadata file hm = .ok (fm, info)) :
    File.init rows file =
      .ok ({ current_frame_idx := 0, header_metadata := hm,
             footer_metadata := fm, file := file }, info) := by
  simp only [File.init, hload, hfoot]

/-- The live frame count, once start offset and stride are known. -/
theorem get_num_frames_eq (s : FileState) (so bps : Int)
    (hso : get_start_offset s.header_metadata = .ok so)
    (hbps : get_bytes_per_stride s.header_metadata = .ok bps) :
    get_num_frames s = .ok (Int.fdiv ((s.file.length : Int) - so) bps) := by
  unfold get_num_frames
  rw [hso, hbps]
  rfl

/-- C4 counterexample: on the concrete schema `wrows` and stream
    `wfile`, header loading succeeds, row 1 (`f8`, offset 8, not in the
    required-offset set) decodes a 9-element span whose first element is
    the integer 0, yet its stored `Value` is unset (`none`), not that
    first decoded element — refuting the claim that the first decoded
    element of *every* row is stored as the field's value. -/
theorem header_value_not_stored_for_nonrequired_row :
    load_header_metadata wfile wrows = .ok whm ∧
    whm.get? 1 = some ⟨⟨8, "8u", "f8"⟩, none⟩ ∧
    sizeAt wrows 1 = 9 ∧
    (read_at wfile 8 (sizeAt wrows 1) .u8).head? = some (HVal.intv 0) ∧
    (none : Option HVal) ≠ some (HVal.intv 0) := by
  refine ⟨load_wfile, by decide, by decide, ?_, by decide⟩
  obtain ⟨rest, hr⟩ := read_at_head wfile 8 (sizeAt wrows 1) .u8 (by decide)
    (by rw [wfile_length]; decide)
  rw [hr, show bytesPerElem NType.u8 = 1 from rfl, wfile_window_low 8 1 (by omega)]
  rfl

/-- C4 amended: during header decoding, the element count requested for
    every row except the last is the next row's offset minus this row's
    offset minus 1, the last row reads exactly 1 element, and exactly
    that many elements are read when the file covers the span; the first
    decoded element of a row is stored as the field's value only for
    rows whose offset lies in the SPE 3.0 required-offset set — all
    other rows keep an unset (NaN) value. -/
theorem header_row_sizes_and_required_values (file : List Nat)
    (rows : List HeaderRow) (otv : List (Nat × List HVal))
    (hm : List HeaderField)
    (hd : decodeRows file rows = .ok otv)
    (hl : load_header_metadata file rows = .ok hm) :
    ∀ i r, rows.get? i = some r →
      ∃ t, binary_to_ntype r.binary = some t ∧
        otv.get? i = some (r.offset, read_at file r.offset (sizeAt rows i) t) ∧
        ((0 : Int) ≤ sizeAt rows i →
          r.offset + (sizeAt rows i).toNat * bytesPerElem t ≤ file.length →
          (read_at file r.offset (sizeAt rows i) t).length =
            (sizeAt rows i).toNat) ∧
        hm.get? i = some ⟨r, if r.offset ∈ spe_30_required_offsets then
          (dictLookup otv r.offset).bind List.head? else none⟩ := by
  intro i r hr
  obtain ⟨hlen0, hget⟩ := decodeRows_ok_get file rows otv hd
  obtain ⟨t, hb, hotv⟩ := hget i r hr
  refine ⟨t, hb, hotv, ?_, ?_⟩
  · intro hsz hcov
    rw [read_at_length]
    have hneg : ¬ sizeAt rows i < 0 := by omega
    simp only [hneg, if_false]
    have hb0 : 0 < bytesPerElem t := bytesPerElem_pos t
    have hle : (sizeAt rows i).toNat ≤ (file.length - r.offset) / bytesPerElem t := by
      rw [Nat.le_div_iff_mul_le hb0]
      generalize hA : (sizeAt rows i).toNat * bytesPerElem t = A at hcov ⊢
      omega
    exact Nat.min_eq_left hle
  · have h2 : applyRequired otv spe_30_required_offsets
        (rows.map fun r2 => (⟨r2, none⟩ : HeaderField)) = .ok hm := by
      rw [← load_header_metadata_eq file rows otv hd]
      exact hl
    have hall := applyRequired_ok_inv otv spe_30_required_offsets _ hm h2
    rw [applyRequired_ok otv spe_30_required_offsets _ hall] at h2
    have hmeq := (Except.ok.injEq _ _).mp h2
    rw [← hmeq]
    rw [List.get?_map, List.get?_map, hr]
    by_cases hmem : r.offset ∈ spe_30_required_offsets
    · simp [hmem]
    · simp [hmem]

/-- C4 witness: on `wfile` / `wrows`, row 2 (`f18`) requests
    `34 - 18 - 1 = 15` elements and reads exactly 15, and its stored
    value is the first decoded element, 0. -/
theorem header_row_sizes_and_required_values_witness :
    decodeRows wfile wrows = .ok wotv ∧
    load_header_metadata wfile wrows = .ok whm ∧
    wrows.get? 2 = some ⟨18, "8u", "f18"⟩ ∧
    sizeAt wrows 2 = 15 ∧
    (read_at wfile 18 (sizeAt wrows 2) .u8).length = (sizeAt wrows 2).toNat ∧
    whm.get? 2 = some ⟨⟨18, "8u", "f18"⟩, some (HVal.intv 0)⟩ := by
  have h := header_row_sizes_and_required_values wfile wrows wotv whm
    decode_wrows load_wfile 2 ⟨18, "8u", "f18"⟩ (by decide)
  obtain ⟨t, hb, hotv, hlen, hhm⟩ := h
  have ht : t = NType.u8 := by
    rw [show binary_to_ntype "8u" = some NType.u8 from rfl] at hb
    injection hb with h
    exact h.symm
  subst ht
  refine ⟨decode_wrows, load_wfile, by decide, by decide, ?_, by decide⟩
  exact hlen (by decide) (by rw [wfile_length]; decide)

/-- C8: when the `XMLOffset` header value is 0, `File.__init__` records
    the footer as absent (the attribute stays unset), emits exactly one
    informational message and raises nothing; and frame reads on the
    resulting session still succeed from header-derived geometry alone
    whenever at least one complete frame is present. -/
theorem absent_footer_info_and_reads_succeed (rows : List HeaderRow)
    (file : List Nat) (hm : List HeaderField) (f : HeaderField)
    (hload : load_header_metadata file rows = .ok hm)
    (hxf : findByTypeName hm "XMLOffset" = some f)
    (hv : f.value = some (.intv 0)) :
    File.init rows file =
      .ok ((⟨0, hm, none, file⟩ : FileState),
        ["INFO: XML footer metadata is empty"]) ∧
    (∀ (ctime : ℚ) (idx n so bps bpf ppf x y : Int) (t : NType),
      get_num_frames (⟨0, hm, none, file⟩ : FileState) = .ok n →
      1 ≤ n →
      get_start_offset hm = .ok so →
      get_bytes_per_stride hm = .ok bps →
      get_bytes_per_frame hm = .ok bpf →
      get_pixels_per_frame hm = .ok ppf →
      get_pixel_ntype hm = .ok t →
      getValueInt hm "xdim" = .ok x →
      getValueInt hm "ydim" = .ok y →
      0 ≤ x → 0 ≤ y →
      ((get_frame ctime (⟨0, hm, none, file⟩ : FileState) idx).2).toBool =
        true) := by
  constructor
  · exact init_eq rows file hm none _ hload
      (load_footer_metadata_zero file hm f hxf hv)
  · intro ctime idx n so bps bpf ppf x y t hn hn1 hso hbps hbpf hppf ht hx hy hx0 hy0
    have hne : n ≠ 0 := by omega
    rw [get_frame_eq_of_num ctime _ idx n hn, if_neg hne]
    -- geometry identities via the inversion lemmas and determinism
    obtain ⟨ppf2, t2, hppf2, ht2, hbpfval⟩ := get_bytes_per_frame_inv hm bpf hbpf
    rw [hppf] at hppf2
    injection hppf2 with hppf2e
    subst hppf2e
    rw [ht] at ht2
    injection ht2 with ht2e
    subst ht2e
    obtain ⟨x2, y2, hx2, hy2, hxyval⟩ := get_pixels_per_frame_inv hm ppf hppf
    rw [hx] at hx2
    injection hx2 with hx2e
    subst hx2e
    rw [hy] at hy2
    injection hy2 with hy2e
    subst hy2e
    obtain ⟨bpf2, hbpf2, hbpsval⟩ := get_bytes_per_stride_inv hm bps hbps
    rw [hbpf] at hbpf2
    injection hbpf2 with hbpf2e
    subst hbpf2e
    obtain ⟨so2, bps2, hso2, hbps2, hnval⟩ := get_num_frames_inv _ n hn
    rw [hso] at hso2
    injection hso2 with hso2e
    subst hso2e
    rw [hbps] at hbps2
    injection hbps2 with hbps2e
    subst hbps2e
    have hso0 : 0 ≤ so := get_start_offset_nonneg hm so hso
    have hppf0 : 0 ≤ ppf := by
      rw [hxyval]
      exact mul_nonneg hx0 hy0
    have hbpf0 : 0 ≤ bpf := by
      rw [hbpfval]
      exact mul_nonneg hppf0 (by positivity)
    have hbps0 : 0 < bps := by omega
    have hres0 : 0 ≤ Int.fmod idx n := Int.fmod_nonneg' idx (by omega)
    have hreslt : Int.fmod idx n < n := Int.fmod_lt_of_pos idx (by omega)
    have hfit : so + Int.fmod idx n * bps + bps ≤ (file.length : Int) := by
      have h1 : bps * n ≤ (file.length : Int) - so := by
        rw [hnval]
        exact fdiv_mul_le _ _ hbps0
      have h2 : (Int.fmod idx n + 1) * bps ≤ n * bps := by
        have : Int.fmod idx n + 1 ≤ n := by omega
        exact mul_le_mul_of_nonneg_right this (le_of_lt hbps0)
      nlinarith
    obtain ⟨md, hmd⟩ := readResolvedFrame_ok file hm ctime (Int.fmod idx n)
      so bps bpf ppf t x y hso hbps hbpf hppf ht hx hy hres0 hso0 hxyval
      hppf0 hbpfval hbpsval hfit
    rw [hmd]
    rfl

/-- C8 witness: on `wrows` / `wfile` (whose `XMLOffset` value is 0),
    construction succeeds with no footer and one informational message,
    one complete frame is available, and reading frame `-1` succeeds. -/
theorem absent_footer_info_and_reads_succeed_witness :
    load_header_metadata wfile wrows = .ok whm ∧
    findByTypeName whm "XMLOffset" =
      some ⟨⟨678, "64u", "XMLOffset"⟩, some (HVal.intv 0)⟩ ∧
    File.init wrows wfile =
      .ok ((⟨0, whm, none, wfile⟩ : FileState),
        ["INFO: XML footer metadata is empty"]) ∧
    get_num_frames (⟨0, whm, none, wfile⟩ : FileState) = .ok 1 ∧
    ((get_frame 0 (⟨0, whm, none, wfile⟩ : FileState) (-1)).2).toBool = true := by
  have h := absent_footer_info_and_reads_succeed wrows wfile whm
    ⟨⟨678, "64u", "XMLOffset"⟩, some (HVal.intv 0)⟩ load_wfile
    (by decide) (by decide)
  have hlen : (((⟨0, whm, none, wfile⟩ : FileState).file.length : Nat) : Int) =
      (4128 : Int) := by
    exact_mod_cast congrArg (Nat.cast : Nat → Int) wfile_length
  have hnf : get_num_frames (⟨0, whm, none, wfile⟩ : FileState) = .ok 1 := by
    rw [get_num_frames_eq _ 4100 28 (by decide) (by decide), hlen]
    decide
  refine ⟨load_wfile, by decide, h.1, hnf, ?_⟩
  exact h.2 0 (-1) 1 4100 28 4 2 2 1 .u16 hnf (by norm_num) (by decide)
    (by decide) (by decide) (by decide) (by decide) (by decide) (by decide)
    (by norm_num) (by norm_num)

/-- C10: when the `XMLOffset` header value is 0, the footer attribute is
    never created on the session, so `get_footer_metadata` raises
    `AttributeError` instead of returning a testable "absent" value. -/
theorem footer_attr_missing_raises (rows : List HeaderRow) (file : List Nat)
    (hm : List HeaderField) (f : HeaderField)
    (hload : load_header_metadata file rows = .ok hm)
    (hxf : findByTypeName hm "XMLOffset" = some f)
    (hv : f.value = some (.intv 0)) :
    File.init rows file =
      .ok ((⟨0, hm, none, file⟩ : FileState),
        ["INFO: XML footer metadata is empty"]) ∧
    (⟨0, hm, none, file⟩ : FileState).footer_metadata = none ∧
    get_footer_metadata (⟨0, hm, none, file⟩ : FileState) =
      .error .attributeError :=
  ⟨init_eq rows file hm none _ hload
      (load_footer_metadata_zero file hm f hxf hv), rfl, rfl⟩

/-- C10 witness: the concrete session built on `wrows` / `wfile` has no
    footer attribute and its `get_footer_metadata` raises. -/
theorem footer_attr_missing_raises_witness :
    load_header_metadata wfile wrows = .ok whm ∧
    File.init wrows wfile =
      .ok ((⟨0, whm, none, wfile⟩ : FileState),
        ["INFO: XML footer metadata is empty"]) ∧
    get_footer_metadata (⟨0, whm, none, wfile⟩ : FileState) =
      .error .attributeError := by
  have h := footer_attr_missing_raises wrows wfile whm
    ⟨⟨678, "64u", "XMLOffset"⟩, some (HVal.intv 0)⟩ load_wfile
    (by decide) (by decide)
  exact ⟨load_wfile, h.1, h.2.2⟩

end ReadSpe